import Mathlib

attribute [local semireducible] Rat.mul Rat.add Rat.sub Rat.inv

/-!
Verification of the geographic clustering engine of this repository
(`src/utils/clustering.ts`, export `kMeansCluster`).

Modelling conventions:

* Coordinates and centroid positions are rationals (`ℚ`): the source performs
  exact-looking arithmetic (sums, division by a count, squaring) on JS numbers;
  over `ℚ` those operations are exact.
* The source compares `Math.sqrt(dx*dx + dy*dy)` values with strict `<` only.
  Since `Real.sqrt` is strictly monotone on nonnegative numbers, comparing
  square roots with `<` is equivalent to comparing the squared distances, so
  the model works with the squared Euclidean distance `euclideanDistanceSq`.
* `Math.random()` initialization: the source draws `k` centroids uniformly in
  the bounding box of the input. The model takes the list of drawn centroids
  as an explicit parameter `init`; a run of the source corresponds to a call
  with `init.length = k` (and each coordinate inside the bounding box, which
  no theorem below needs beyond concrete reachable instances).
* `minDistance` starts as `Infinity` in the source, so the first centroid is
  always adopted (every real distance is finite). The model's `assignGo`
  therefore starts from the state `(0, distance to centroid 0)`.
* The source's `while (iterations < maxIterations)` loop is modelled by
  structural recursion on the remaining fuel `maxIterations - iterations`;
  the model additionally returns the number of executed loop bodies.
* The cluster records built at the end spread the restaurant object and tag it
  with `cluster: i`; the tag duplicates the cluster `id` and is not read
  anywhere, so members are modelled as the original restaurant records.
-/

/-- The `Restaurant` input record (`src/types/restaurant`): only `id`, `name`
and the coordinates are relevant to the engine; `cuisine`/`zone` are opaque
passthrough payload and are elided. -/
structure Restaurant where
  id : String
  name : String
  lat : ℚ
  lon : ℚ
  deriving DecidableEq

/-- The `ClusterData` output record of `kMeansCluster`. -/
structure ClusterData where
  id : ℕ
  center : ℚ × ℚ
  restaurants : List Restaurant
  color : String
  deriving DecidableEq

/-- `euclideanDistance` of the source, squared (see the header: the source
only ever compares distances with strict `<`, and squaring preserves those
comparisons). -/
def euclideanDistanceSq (point1 point2 : ℚ × ℚ) : ℚ :=
  let dx := point1.1 - point2.1
  let dy := point1.2 - point2.2
  dx * dx + dy * dy

/-- The inner assignment loop of the source (lines 27–39): state is the pair
(current `assignedCluster`, current `minDistance`), `i` is the index of the
next centroid to examine.  A later centroid replaces the state only on a
strictly smaller distance. -/
def assignGo (pos : ℚ × ℚ) : ℕ → ℕ × ℚ → List (ℚ × ℚ) → ℕ × ℚ
  | _, st, [] => st
  | i, st, c :: rest =>
    if euclideanDistanceSq pos c < st.2 then
      assignGo pos (i + 1) (i, euclideanDistanceSq pos c) rest
    else assignGo pos (i + 1) st rest

/-- Index of the centroid a point at `pos` is assigned to.  With an empty
centroid list the source keeps `assignedCluster = 0`; otherwise centroid 0
always beats the initial `minDistance = Infinity`. -/
def assignPoint (pos : ℚ × ℚ) (centroids : List (ℚ × ℚ)) : ℕ :=
  match centroids with
  | [] => 0
  | c :: rest => (assignGo pos 1 (0, euclideanDistanceSq pos c) rest).1

/-- `restaurants.filter((_, idx) => assignments[idx] === i)` of the source
(the assignment vector always has the same length as the input list). -/
def clusterMembers (restaurants : List Restaurant) (assignments : List ℕ)
    (i : ℕ) : List Restaurant :=
  ((restaurants.zip assignments).filter (fun ra => ra.2 == i)).map Prod.fst

/-- The centroid recomputation of the update step: mean latitude and mean
longitude, each a `reduce`-sum divided by the member count. -/
def meanPosition (rs : List Restaurant) : ℚ × ℚ :=
  ((rs.foldl (fun sum r => sum + r.lat) 0) / (rs.length : ℚ),
   (rs.foldl (fun sum r => sum + r.lon) 0) / (rs.length : ℚ))

/-- One body of the update loop (source lines 52–57): if cluster `i`
currently has members, overwrite `centroids[i]` with their mean position;
otherwise leave the array untouched. -/
def updateStep (restaurants : List Restaurant) (assignments : List ℕ)
    (cs : List (ℚ × ℚ)) (i : ℕ) : List (ℚ × ℚ) :=
  let clusterRestaurants := clusterMembers restaurants assignments i
  if 0 < clusterRestaurants.length then cs.set i (meanPosition clusterRestaurants)
  else cs

/-- The update step (source lines 51–58): the update-loop body run for every
index `0 ≤ i < k` in order. -/
def updateCentroids (restaurants : List Restaurant) (assignments : List ℕ)
    (k : ℕ) (centroids : List (ℚ × ℚ)) : List (ℚ × ℚ) :=
  (List.range k).foldl (updateStep restaurants assignments) centroids

/-- `maxIterations` of the source. -/
def maxIterations : ℕ := 100

/-- The `while (iterations < maxIterations)` loop (source lines 22–61), by
recursion on the remaining fuel.  Returns the final assignment vector, the
final centroids and the number of loop bodies executed.  The body computes
the new assignments, stops when they equal the previous ones (the first
iteration compares against the initial all-zero vector), otherwise adopts
them and recomputes the centroids. -/
def kmeansLoop (restaurants : List Restaurant) (k : ℕ) :
    ℕ → List ℕ → List (ℚ × ℚ) → List ℕ × List (ℚ × ℚ) × ℕ
  | 0, assignments, centroids => (assignments, centroids, 0)
  | fuel + 1, assignments, centroids =>
    let newAssignments := restaurants.map (fun r => assignPoint (r.lat, r.lon) centroids)
    if assignments = newAssignments then (assignments, centroids, 0)
    else
      let updated := updateCentroids restaurants newAssignments k centroids
      let result := kmeansLoop restaurants k fuel newAssignments updated
      (result.1, result.2.1, result.2.2 + 1)

/-- The fixed color palette of the source (line 64). -/
def clusterColors : List String :=
  ["#e91e63", "#9c27b0", "#3f51b5", "#00bcd4", "#4caf50", "#ff9800", "#f44336"]

/-- The iterative part of `kMeansCluster`: initial assignments are all zero,
initial centroids are the `k` random draws (`init`), fuel is `maxIterations`.
Negative `k` runs the very same loops zero times, hence `Int.toNat`. -/
def kmeansRun (restaurants : List Restaurant) (k : ℤ) (init : List (ℚ × ℚ)) :
    List ℕ × List (ℚ × ℚ) × ℕ :=
  kmeansLoop restaurants k.toNat maxIterations
    (List.replicate restaurants.length 0) init

/-- One step of the output assembly (source lines 67–80): for index `i`, if
the final member list is nonempty, emit the `ClusterData` with id `i`, the
current centroid, the members and the palette color `i % palette length`;
otherwise emit nothing.  `centroids` always has length `k` in a source run,
so the `getD` default is never read. -/
def clusterOut (restaurants : List Restaurant) (assignments : List ℕ)
    (centroids : List (ℚ × ℚ)) (i : ℕ) : Option ClusterData :=
  let clusterRestaurants := clusterMembers restaurants assignments i
  if 0 < clusterRestaurants.length then
    some ⟨i, centroids.getD i (0, 0), clusterRestaurants,
          clusterColors.getD (i % clusterColors.length) ""⟩
  else none

/-- `kMeansCluster(restaurants, k)` with the random centroid draws made
explicit as `init`.  Empty input returns `[]` immediately (source line 5);
afterwards the output assembly runs for each index `0 ≤ i < k` in order. -/
def kMeansCluster (restaurants : List Restaurant) (k : ℤ)
    (init : List (ℚ × ℚ)) : List ClusterData :=
  if restaurants.length = 0 then []
  else
    (List.range k.toNat).filterMap
      (clusterOut restaurants (kmeansRun restaurants k init).1
        (kmeansRun restaurants k init).2.1)

/-! ### Properties of the assignment step -/

theorem assignGo_snd_le (pos : ℚ × ℚ) :
    ∀ (rest : List (ℚ × ℚ)) (i : ℕ) (st : ℕ × ℚ), (assignGo pos i st rest).2 ≤ st.2 := by
  intro rest
  induction rest with
  | nil => intro i st; simp [assignGo]
  | cons c rest ih =>
    intro i st
    simp only [assignGo]
    split
    · exact le_of_lt (lt_of_le_of_lt (ih _ _) (by assumption))
    · exact ih _ _

theorem assignGo_snd_le_getD (pos : ℚ × ℚ) :
    ∀ (rest : List (ℚ × ℚ)) (i : ℕ) (st : ℕ × ℚ) (m : ℕ), m < rest.length →
      (assignGo pos i st rest).2 ≤ euclideanDistanceSq pos (rest.getD m (0, 0)) := by
  intro rest
  induction rest with
  | nil => intro i st m hm; simp at hm
  | cons c rest ih =>
    intro i st m hm
    match m with
    | 0 =>
      simp only [List.getD_cons_zero, assignGo]
      split
      · exact assignGo_snd_le pos rest _ _
      · exact le_trans (assignGo_snd_le pos rest _ _) (not_lt.mp (by assumption))
    | m + 1 =>
      simp only [List.length_cons, Nat.succ_lt_succ_iff] at hm
      simp only [List.getD_cons_succ, assignGo]
      split
      · exact ih _ _ m hm
      · exact ih _ _ m hm

theorem assignGo_fst_lt (pos : ℚ × ℚ) :
    ∀ (rest : List (ℚ × ℚ)) (i : ℕ) (st : ℕ × ℚ), st.1 < i →
      (assignGo pos i st rest).1 < i + rest.length := by
  intro rest
  induction rest with
  | nil => intro i st hst; simpa [assignGo] using hst
  | cons c rest ih =>
    intro i st hst
    simp only [assignGo, List.length_cons]
    split
    · have := ih (i + 1) (i, euclideanDistanceSq pos c) (by simp)
      omega
    · have := ih (i + 1) st (lt_trans hst (Nat.lt_succ_self i))
      omega

theorem assignGo_snd_lt_of_fst_ne (pos : ℚ × ℚ) :
    ∀ (rest : List (ℚ × ℚ)) (i : ℕ) (st : ℕ × ℚ), (assignGo pos i st rest).1 ≠ st.1 →
      (assignGo pos i st rest).2 < st.2 := by
  intro rest
  induction rest with
  | nil => intro i st hne; simp [assignGo] at hne
  | cons c rest ih =>
    intro i st hne
    simp only [assignGo] at hne ⊢
    split
    · rename_i hcmp
      exact lt_of_le_of_lt (assignGo_snd_le pos rest _ _) hcmp
    · rename_i hcmp
      rw [if_neg hcmp] at hne
      exact ih _ _ hne

theorem assignGo_strict_earlier (pos : ℚ × ℚ) :
    ∀ (rest : List (ℚ × ℚ)) (i : ℕ) (st : ℕ × ℚ), st.1 < i →
      ∀ m, m < rest.length → i + m < (assignGo pos i st rest).1 →
        (assignGo pos i st rest).2 < euclideanDistanceSq pos (rest.getD m (0, 0)) := by
  intro rest
  induction rest with
  | nil => intro i st _ m hm; simp at hm
  | cons c rest ih =>
    intro i st hst m hm hlt
    match m with
    | 0 =>
      simp only [List.getD_cons_zero]
      by_cases hcmp : euclideanDistanceSq pos c < st.2
      · simp only [assignGo, if_pos hcmp] at hlt ⊢
        have hne : (assignGo pos (i + 1) (i, euclideanDistanceSq pos c) rest).1 ≠ i := by
          omega
        exact assignGo_snd_lt_of_fst_ne pos rest _ _ hne
      · simp only [assignGo, if_neg hcmp] at hlt ⊢
        have hne : (assignGo pos (i + 1) st rest).1 ≠ st.1 := by omega
        exact lt_of_lt_of_le (assignGo_snd_lt_of_fst_ne pos rest _ _ hne) (not_lt.mp hcmp)
    | m + 1 =>
      simp only [List.length_cons, Nat.succ_lt_succ_iff] at hm
      simp only [List.getD_cons_succ]
      by_cases hcmp : euclideanDistanceSq pos c < st.2
      · simp only [assignGo, if_pos hcmp] at hlt ⊢
        exact ih (i + 1) (i, euclideanDistanceSq pos c) (by simp) m hm (by omega)
      · simp only [assignGo, if_neg hcmp] at hlt ⊢
        exact ih (i + 1) st (lt_trans hst (Nat.lt_succ_self i)) m hm (by omega)

theorem assignGo_snd_eq_getD (pos : ℚ × ℚ) (L : List (ℚ × ℚ)) :
    ∀ (rest : List (ℚ × ℚ)) (i : ℕ) (st : ℕ × ℚ), rest = L.drop i →
      st.2 = euclideanDistanceSq pos (L.getD st.1 (0, 0)) →
      (assignGo pos i st rest).2 =
        euclideanDistanceSq pos (L.getD (assignGo pos i st rest).1 (0, 0)) := by
  intro rest
  induction rest with
  | nil => intro i st _ hst; simpa [assignGo] using hst
  | cons c rest ih =>
    intro i st hdrop hst
    have hc : L.getD i (0, 0) = c := by
      have h0 : L[i]? = some c := by
        have hh := List.getElem?_drop L i 0
        rw [← hdrop] at hh
        simpa using hh.symm
      simp [List.getD_eq_getElem?_getD, h0]
    have hrest : rest = L.drop (i + 1) := by
      have hh := List.tail_drop L i
      rw [← hdrop] at hh
      simpa using hh
    by_cases hcmp : euclideanDistanceSq pos c < st.2
    · simp only [assignGo, if_pos hcmp]
      refine ih (i + 1) (i, euclideanDistanceSq pos c) hrest ?_
      show euclideanDistanceSq pos c = euclideanDistanceSq pos (L.getD i (0, 0))
      rw [hc]
    · simp only [assignGo, if_neg hcmp]
      exact ih (i + 1) st hrest hst

/-! ### Invariants of the update step and of the iteration -/

theorem assignPoint_lt_length (pos : ℚ × ℚ) (centroids : List (ℚ × ℚ))
    (h : centroids ≠ []) : assignPoint pos centroids < centroids.length := by
  cases centroids with
  | nil => exact absurd rfl h
  | cons c rest =>
    have hlt := assignGo_fst_lt pos rest 1 (0, euclideanDistanceSq pos c) (by simp)
    simp only [assignPoint, List.length_cons]
    omega

theorem updateStep_length (restaurants : List Restaurant) (assignments : List ℕ)
    (cs : List (ℚ × ℚ)) (i : ℕ) :
    (updateStep restaurants assignments cs i).length = cs.length := by
  simp only [updateStep]
  split <;> simp

theorem updateFold_length (restaurants : List Restaurant) (assignments : List ℕ) :
    ∀ (L : List ℕ) (cs : List (ℚ × ℚ)),
      (L.foldl (updateStep restaurants assignments) cs).length = cs.length := by
  intro L
  induction L with
  | nil => intro cs; rfl
  | cons j L ih =>
    intro cs
    simp only [List.foldl_cons]
    rw [ih, updateStep_length]

theorem updateCentroids_length (restaurants : List Restaurant) (assignments : List ℕ)
    (k : ℕ) (centroids : List (ℚ × ℚ)) :
    (updateCentroids restaurants assignments k centroids).length = centroids.length :=
  updateFold_length restaurants assignments (List.range k) centroids

theorem updateStep_getD_ne (restaurants : List Restaurant) (assignments : List ℕ)
    (cs : List (ℚ × ℚ)) (i j : ℕ) (d : ℚ × ℚ) (hne : j ≠ i) :
    (updateStep restaurants assignments cs j).getD i d = cs.getD i d := by
  simp only [updateStep]
  split
  · simp [List.getD_eq_getElem?_getD, List.getElem?_set_ne hne]
  · rfl

theorem updateFold_getD_not_mem (restaurants : List Restaurant) (assignments : List ℕ)
    (d : ℚ × ℚ) :
    ∀ (L : List ℕ) (cs : List (ℚ × ℚ)) (i : ℕ), i ∉ L →
      (L.foldl (updateStep restaurants assignments) cs).getD i d = cs.getD i d := by
  intro L
  induction L with
  | nil => intro cs i _; rfl
  | cons j L ih =>
    intro cs i hmem
    simp only [List.mem_cons, not_or] at hmem
    simp only [List.foldl_cons]
    rw [ih _ _ hmem.2, updateStep_getD_ne _ _ _ _ _ _ (fun hji => hmem.1 hji.symm)]

theorem updateStep_getD_self (restaurants : List Restaurant) (assignments : List ℕ)
    (cs : List (ℚ × ℚ)) (i : ℕ) (d : ℚ × ℚ) (hi : i < cs.length) :
    (updateStep restaurants assignments cs i).getD i d =
      if 0 < (clusterMembers restaurants assignments i).length then
        meanPosition (clusterMembers restaurants assignments i)
      else cs.getD i d := by
  simp only [updateStep]
  split
  · simp [List.getD_eq_getElem?_getD, List.getElem?_set_self hi]
  · rfl

theorem updateFold_getD (restaurants : List Restaurant) (assignments : List ℕ)
    (d : ℚ × ℚ) :
    ∀ (L : List ℕ) (cs : List (ℚ × ℚ)) (i : ℕ), L.Nodup → i ∈ L → i < cs.length →
      (L.foldl (updateStep restaurants assignments) cs).getD i d =
        if 0 < (clusterMembers restaurants assignments i).length then
          meanPosition (clusterMembers restaurants assignments i)
        else cs.getD i d := by
  intro L
  induction L with
  | nil => intro cs i _ hmem; simp at hmem
  | cons j L ih =>
    intro cs i hnd hmem hi
    simp only [List.nodup_cons] at hnd
    simp only [List.foldl_cons]
    rcases List.mem_cons.mp hmem with hji | hmemL
    · subst hji
      rw [updateFold_getD_not_mem _ _ _ _ _ _ hnd.1, updateStep_getD_self _ _ _ _ _ hi]
    · rw [ih _ _ hnd.2 hmemL (by rw [updateStep_length]; exact hi),
        updateStep_getD_ne _ _ _ _ _ _ (fun hji => hnd.1 (by rw [hji]; exact hmemL))]

theorem updateCentroids_getD (restaurants : List Restaurant) (assignments : List ℕ)
    (k : ℕ) (centroids : List (ℚ × ℚ)) (i : ℕ) (d : ℚ × ℚ)
    (hik : i < k) (hi : i < centroids.length) :
    (updateCentroids restaurants assignments k centroids).getD i d =
      if 0 < (clusterMembers restaurants assignments i).length then
        meanPosition (clusterMembers restaurants assignments i)
      else centroids.getD i d :=
  updateFold_getD restaurants assignments d (List.range k) centroids i
    (List.nodup_range k) (List.mem_range.mpr hik) hi

theorem kmeansLoop_steps_le (restaurants : List Restaurant) (k : ℕ) :
    ∀ (fuel : ℕ) (a : List ℕ) (c : List (ℚ × ℚ)),
      (kmeansLoop restaurants k fuel a c).2.2 ≤ fuel := by
  intro fuel
  induction fuel with
  | zero => intro a c; exact le_refl 0
  | succ fuel ih =>
    intro a c
    simp only [kmeansLoop]
    split
    · exact Nat.zero_le _
    · exact Nat.succ_le_succ (ih _ _)

theorem kmeansLoop_fst_length (restaurants : List Restaurant) (k : ℕ) :
    ∀ (fuel : ℕ) (a : List ℕ) (c : List (ℚ × ℚ)), a.length = restaurants.length →
      (kmeansLoop restaurants k fuel a c).1.length = restaurants.length := by
  intro fuel
  induction fuel with
  | zero => intro a c ha; exact ha
  | succ fuel ih =>
    intro a c ha
    simp only [kmeansLoop]
    split
    · exact ha
    · exact ih _ _ (by simp)

theorem kmeansLoop_centroids_length (restaurants : List Restaurant) (k : ℕ) :
    ∀ (fuel : ℕ) (a : List ℕ) (c : List (ℚ × ℚ)),
      (kmeansLoop restaurants k fuel a c).2.1.length = c.length := by
  intro fuel
  induction fuel with
  | zero => intro a c; rfl
  | succ fuel ih =>
    intro a c
    simp only [kmeansLoop]
    split
    · rfl
    · rw [ih, updateCentroids_length]

theorem kmeansLoop_fst_lt (restaurants : List Restaurant) (k : ℕ) :
    ∀ (fuel : ℕ) (a : List ℕ) (c : List (ℚ × ℚ)), 0 < k → c.length = k →
      (∀ x ∈ a, x < k) → ∀ x ∈ (kmeansLoop restaurants k fuel a c).1, x < k := by
  intro fuel
  induction fuel with
  | zero => intro a c _ _ ha; exact ha
  | succ fuel ih =>
    intro a c hk hc ha
    simp only [kmeansLoop]
    split
    · exact ha
    · refine ih _ _ hk (by rw [updateCentroids_length]; exact hc) ?_
      intro x hx
      rcases List.mem_map.mp hx with ⟨r, _, rfl⟩
      have hne : c ≠ [] := by
        intro hnil
        rw [hnil] at hc
        simp at hc
        omega
      have := assignPoint_lt_length (r.lat, r.lon) c hne
      omega

/-! ### The final assignment partitions the input -/

theorem flatten_map_cons_perm (x : Restaurant × ℕ) (g : ℕ → List (Restaurant × ℕ)) :
    ∀ (L : List ℕ) (a : ℕ), L.Nodup → a ∈ L →
      ((L.map (fun i => if a = i then x :: g i else g i)).flatten).Perm
        (x :: (L.map g).flatten) := by
  intro L
  induction L with
  | nil => intro a _ h; simp at h
  | cons b L ih =>
    intro a hnd hmem
    simp only [List.nodup_cons] at hnd
    rcases List.mem_cons.mp hmem with hab | hmemL
    · subst hab
      have hL : L.map (fun i => if a = i then x :: g i else g i) = L.map g := by
        apply List.map_congr_left
        intro i hi
        exact if_neg (fun hai => hnd.1 (by rw [hai]; exact hi))
      simp only [List.map_cons, List.flatten_cons, if_pos rfl, hL, List.cons_append]
      exact List.Perm.refl _
    · have hab : a ≠ b := fun h => hnd.1 (by rw [← h]; exact hmemL)
      simp only [List.map_cons, List.flatten_cons, if_neg hab]
      exact (List.Perm.append_left (g b) (ih a hnd.2 hmemL)).trans List.perm_middle

theorem pairs_partition_perm :
    ∀ (pairs : List (Restaurant × ℕ)) (k : ℕ), (∀ x ∈ pairs, x.2 < k) →
      (((List.range k).map (fun i => pairs.filter (fun ra => ra.2 == i))).flatten).Perm
        pairs := by
  intro pairs
  induction pairs with
  | nil =>
    intro k _
    have h : ((List.range k).map
        (fun i => List.filter (fun ra => ra.2 == i) ([] : List (Restaurant × ℕ)))).flatten
          = [] := by
      rw [List.flatten_eq_nil_iff]
      intro l hl
      rcases List.mem_map.mp hl with ⟨i, _, rfl⟩
      rfl
    rw [h]
  | cons p pairs ih =>
    intro k hlt
    have hp : p.2 < k := hlt p (List.mem_cons_self p pairs)
    have hfil : (fun i => (p :: pairs).filter (fun ra => ra.2 == i)) =
        (fun i => if p.2 = i then p :: pairs.filter (fun ra => ra.2 == i)
                  else pairs.filter (fun ra => ra.2 == i)) := by
      funext i
      by_cases h : p.2 = i
      · simp [List.filter_cons, h]
      · simp [List.filter_cons, h]
    rw [hfil]
    refine (flatten_map_cons_perm p _ (List.range k) p.2 (List.nodup_range k)
      (List.mem_range.mpr hp)).trans ?_
    exact List.Perm.cons p (ih k (fun x hx => hlt x (List.mem_cons_of_mem _ hx)))

theorem members_flatten_perm (restaurants : List Restaurant) (assignments : List ℕ)
    (k : ℕ) (hlen : restaurants.length = assignments.length)
    (hlt : ∀ x ∈ assignments, x < k) :
    (((List.range k).map (clusterMembers restaurants assignments)).flatten).Perm
      restaurants := by
  have h1 : (List.range k).map (clusterMembers restaurants assignments) =
      ((List.range k).map
        (fun i => (restaurants.zip assignments).filter (fun ra => ra.2 == i))).map
          (List.map Prod.fst) := by
    rw [List.map_map]
    rfl
  rw [h1, ← List.map_flatten]
  have h2 := pairs_partition_perm (restaurants.zip assignments) k
    (fun x hx => hlt x.2 (List.of_mem_zip (by rwa [← Prod.mk.eta (p := x)] at hx)).2)
  have h3 := h2.map Prod.fst
  rwa [List.map_fst_zip restaurants assignments (le_of_eq hlen)] at h3

theorem clusterMembers_sublist (restaurants : List Restaurant) (assignments : List ℕ)
    (i : ℕ) (hlen : restaurants.length ≤ assignments.length) :
    (clusterMembers restaurants assignments i).Sublist restaurants := by
  have h1 : ((restaurants.zip assignments).filter (fun ra => ra.2 == i)).Sublist
      (restaurants.zip assignments) := List.filter_sublist _
  have h2 := h1.map Prod.fst
  rwa [List.map_fst_zip restaurants assignments hlen] at h2

/-! ### Output assembly lemmas -/

theorem clusterOut_eq_some (restaurants : List Restaurant) (assignments : List ℕ)
    (centroids : List (ℚ × ℚ)) (i : ℕ) (c : ClusterData)
    (h : clusterOut restaurants assignments centroids i = some c) :
    c.id = i ∧ c.restaurants = clusterMembers restaurants assignments i ∧
      c.restaurants ≠ [] ∧ c.center = centroids.getD i (0, 0) := by
  simp only [clusterOut] at h
  split at h
  · rename_i hpos
    cases h
    refine ⟨rfl, rfl, ?_, rfl⟩
    intro hnil
    have hnil2 : clusterMembers restaurants assignments i = [] := hnil
    rw [hnil2] at hpos
    simp at hpos
  · cases h

theorem clusterOut_pos (restaurants : List Restaurant) (assignments : List ℕ)
    (centroids : List (ℚ × ℚ)) (i : ℕ)
    (h : 0 < (clusterMembers restaurants assignments i).length) :
    clusterOut restaurants assignments centroids i =
      some ⟨i, centroids.getD i (0, 0), clusterMembers restaurants assignments i,
            clusterColors.getD (i % clusterColors.length) ""⟩ := by
  simp [clusterOut, h]

theorem clusterOut_neg (restaurants : List Restaurant) (assignments : List ℕ)
    (centroids : List (ℚ × ℚ)) (i : ℕ)
    (h : ¬ 0 < (clusterMembers restaurants assignments i).length) :
    clusterOut restaurants assignments centroids i = none := by
  simp [clusterOut, h]

theorem filterMap_clusterOut_members (restaurants : List Restaurant)
    (assignments : List ℕ) (centroids : List (ℚ × ℚ)) :
    ∀ L : List ℕ,
      ((L.filterMap (clusterOut restaurants assignments centroids)).map
          (fun c => c.restaurants)).flatten =
        (L.map (clusterMembers restaurants assignments)).flatten := by
  intro L
  induction L with
  | nil => rfl
  | cons i L ih =>
    by_cases h : 0 < (clusterMembers restaurants assignments i).length
    · rw [List.filterMap_cons_some (clusterOut_pos restaurants assignments centroids i h)]
      simp only [List.map_cons, List.flatten_cons]
      rw [ih]
    · rw [List.filterMap_cons_none (clusterOut_neg restaurants assignments centroids i h)]
      simp only [List.map_cons, List.flatten_cons]
      rw [ih]
      have hnil : clusterMembers restaurants assignments i = [] :=
        List.length_eq_zero.mp (by omega)
      rw [hnil]
      rfl

theorem filterMap_clusterOut_ids (restaurants : List Restaurant)
    (assignments : List ℕ) (centroids : List (ℚ × ℚ)) :
    ∀ L : List ℕ,
      (L.filterMap (clusterOut restaurants assignments centroids)).map (fun c => c.id) =
        L.filter (fun i => decide (0 < (clusterMembers restaurants assignments i).length)) := by
  intro L
  induction L with
  | nil => rfl
  | cons i L ih =>
    by_cases h : 0 < (clusterMembers restaurants assignments i).length
    · rw [List.filterMap_cons_some (clusterOut_pos restaurants assignments centroids i h),
        List.filter_cons_of_pos (by simpa using h)]
      simp only [List.map_cons, ih]
    · rw [List.filterMap_cons_none (clusterOut_neg restaurants assignments centroids i h),
        List.filter_cons_of_neg (by simpa using h)]
      exact ih

/-! ### Facts about a full run -/

theorem kmeansRun_fst_length (restaurants : List Restaurant) (k : ℤ)
    (init : List (ℚ × ℚ)) :
    (kmeansRun restaurants k init).1.length = restaurants.length :=
  kmeansLoop_fst_length restaurants k.toNat maxIterations _ init (by simp)

theorem kmeansRun_fst_lt (restaurants : List Restaurant) (k : ℤ)
    (init : List (ℚ × ℚ)) (hk : 0 < k) (hinit : init.length = k.toNat) :
    ∀ x ∈ (kmeansRun restaurants k init).1, x < k.toNat :=
  kmeansLoop_fst_lt restaurants k.toNat maxIterations _ init (by omega) hinit
    (fun x hx => by rw [List.eq_of_mem_replicate hx]; omega)

theorem kMeans_members_flatten_perm (restaurants : List Restaurant) (k : ℤ)
    (init : List (ℚ × ℚ)) (hk : 0 < k) (hinit : init.length = k.toNat) :
    (((kMeansCluster restaurants k init).map (fun c => c.restaurants)).flatten).Perm
      restaurants := by
  by_cases hemp : restaurants.length = 0
  · simp only [kMeansCluster, if_pos hemp]
    rw [List.length_eq_zero.mp hemp]
    exact List.Perm.refl _
  · simp only [kMeansCluster, if_neg hemp]
    rw [filterMap_clusterOut_members]
    exact members_flatten_perm restaurants _ k.toNat
      (kmeansRun_fst_length restaurants k init).symm
      (kmeansRun_fst_lt restaurants k init hk hinit)

/-! ### Claim theorems -/

/-- C1 counterexample: `kMeansCluster` contains no validation of `k`
whatsoever — with a nonempty input and `k = 0` or `k = -1` the call does
not fail (the function is total, there is no error channel in its type):
it silently returns the empty cluster list, dropping the input point,
instead of surfacing an `InvalidParameter` failure as the claim states. -/
theorem kMeans_nonpositive_k_silent :
    kMeansCluster [⟨"restaurant-0", "A", 0, 0⟩] 0 [] = [] ∧
    kMeansCluster [⟨"restaurant-0", "A", 0, 0⟩] (-1) [] = [] := by
  decide

/-- C2, evaluation at the failing input: for a nonempty input and `k = 1`
the first assignment round sends every point to centroid 0, which equals
the initial all-zero assignment vector, so the loop stops before any
update step ever runs: the returned cluster does contain all points, but
its centroid is the random initial draw `(3/2, 0)` (a value inside the
bounding box of the two points, hence reachable), not the arithmetic mean
`(1, 0)` of the positions. -/
theorem kMeans_k1_centroid_not_mean :
    kMeansCluster [⟨"restaurant-0", "A", 0, 0⟩, ⟨"restaurant-1", "B", 2, 0⟩] 1
        [(3 / 2, 0)] =
      [⟨0, (3 / 2, 0),
        [⟨"restaurant-0", "A", 0, 0⟩, ⟨"restaurant-1", "B", 2, 0⟩], "#e91e63"⟩] ∧
    meanPosition [⟨"restaurant-0", "A", 0, 0⟩, ⟨"restaurant-1", "B", 2, 0⟩] = (1, 0) ∧
    ((3 : ℚ) / 2, (0 : ℚ)) ≠ ((1 : ℚ), (0 : ℚ)) ∧
    ((0 : ℚ) ≤ 3 / 2 ∧ (3 : ℚ) / 2 < 2) := by
  decide

/-- C5: the iteration always terminates, for every input, every `k` and
every choice of initial centroids: at most `maxIterations = 100` loop
bodies execute, and exhausting the budget is not an error — with zero
remaining budget the loop returns the current partition unchanged. -/
theorem kMeans_bounded_iterations (restaurants : List Restaurant) (k : ℤ)
    (init : List (ℚ × ℚ)) :
    (kmeansRun restaurants k init).2.2 ≤ maxIterations ∧ maxIterations = 100 ∧
      ∀ (a : List ℕ) (c : List (ℚ × ℚ)),
        kmeansLoop restaurants k.toNat 0 a c = (a, c, 0) :=
  ⟨kmeansLoop_steps_le restaurants k.toNat maxIterations _ init, rfl,
    fun _ _ => rfl⟩

/-- C6: in the assignment step a point at `pos` is assigned to a valid
centroid index realizing the minimum (squared, equivalently Euclidean)
distance, and on exact ties the lowest such index wins: every strictly
earlier index has strictly larger distance, because a later centroid
replaces the current choice only when its distance is strictly smaller. -/
theorem assignPoint_nearest (pos : ℚ × ℚ) (centroids : List (ℚ × ℚ))
    (h : centroids ≠ []) :
    assignPoint pos centroids < centroids.length ∧
    ∀ i, i < centroids.length →
      euclideanDistanceSq pos (centroids.getD (assignPoint pos centroids) (0, 0)) ≤
        euclideanDistanceSq pos (centroids.getD i (0, 0)) ∧
      (i < assignPoint pos centroids →
        euclideanDistanceSq pos (centroids.getD (assignPoint pos centroids) (0, 0)) <
          euclideanDistanceSq pos (centroids.getD i (0, 0))) := by
  cases centroids with
  | nil => exact absurd rfl h
  | cons c rest =>
    have hfst := assignGo_fst_lt pos rest 1 (0, euclideanDistanceSq pos c) (by simp)
    have hsnd := assignGo_snd_eq_getD pos (c :: rest) rest 1
      (0, euclideanDistanceSq pos c) (by simp) (by simp)
    have hdef : assignPoint pos (c :: rest) =
        (assignGo pos 1 (0, euclideanDistanceSq pos c) rest).1 := rfl
    constructor
    · rw [hdef]
      simp only [List.length_cons]
      omega
    · intro i hi
      constructor
      · rw [hdef, ← hsnd]
        match i with
        | 0 => exact assignGo_snd_le pos rest 1 (0, euclideanDistanceSq pos c)
        | m + 1 =>
          simp only [List.getD_cons_succ]
          simp only [List.length_cons, Nat.succ_lt_succ_iff] at hi
          exact assignGo_snd_le_getD pos rest 1 (0, euclideanDistanceSq pos c) m hi
      · intro hij
        rw [hdef] at hij
        rw [hdef, ← hsnd]
        match i with
        | 0 =>
          simp only [List.getD_cons_zero]
          exact assignGo_snd_lt_of_fst_ne pos rest 1 (0, euclideanDistanceSq pos c)
            (by omega)
        | m + 1 =>
          simp only [List.getD_cons_succ]
          simp only [List.length_cons, Nat.succ_lt_succ_iff] at hi
          exact assignGo_strict_earlier pos rest 1 (0, euclideanDistanceSq pos c)
            (by simp) m hi (by omega)

/-- Witness for C6 at a concrete input: two centroids, the second strictly
closer, so index 1 is chosen. -/
theorem assignPoint_nearest_witness :
    (([((1 : ℚ), (0 : ℚ)), ((0 : ℚ), (0 : ℚ))] : List (ℚ × ℚ)) ≠ []) ∧
    (assignPoint ((0 : ℚ), (0 : ℚ)) [((1 : ℚ), (0 : ℚ)), ((0 : ℚ), (0 : ℚ))] <
        ([((1 : ℚ), (0 : ℚ)), ((0 : ℚ), (0 : ℚ))] : List (ℚ × ℚ)).length ∧
      ∀ i, i < ([((1 : ℚ), (0 : ℚ)), ((0 : ℚ), (0 : ℚ))] : List (ℚ × ℚ)).length →
        euclideanDistanceSq ((0 : ℚ), (0 : ℚ))
            (([((1 : ℚ), (0 : ℚ)), ((0 : ℚ), (0 : ℚ))] : List (ℚ × ℚ)).getD
              (assignPoint ((0 : ℚ), (0 : ℚ))
                [((1 : ℚ), (0 : ℚ)), ((0 : ℚ), (0 : ℚ))]) (0, 0)) ≤
          euclideanDistanceSq ((0 : ℚ), (0 : ℚ))
            (([((1 : ℚ), (0 : ℚ)), ((0 : ℚ), (0 : ℚ))] : List (ℚ × ℚ)).getD i (0, 0)) ∧
        (i < assignPoint ((0 : ℚ), (0 : ℚ)) [((1 : ℚ), (0 : ℚ)), ((0 : ℚ), (0 : ℚ))] →
          euclideanDistanceSq ((0 : ℚ), (0 : ℚ))
              (([((1 : ℚ), (0 : ℚ)), ((0 : ℚ), (0 : ℚ))] : List (ℚ × ℚ)).getD
                (assignPoint ((0 : ℚ), (0 : ℚ))
                  [((1 : ℚ), (0 : ℚ)), ((0 : ℚ), (0 : ℚ))]) (0, 0)) <
            euclideanDistanceSq ((0 : ℚ), (0 : ℚ))
              (([((1 : ℚ), (0 : ℚ)), ((0 : ℚ), (0 : ℚ))] : List (ℚ × ℚ)).getD i
                (0, 0)))) :=
  ⟨by decide, assignPoint_nearest ((0 : ℚ), (0 : ℚ))
    [((1 : ℚ), (0 : ℚ)), ((0 : ℚ), (0 : ℚ))] (by decide)⟩

/-- C8: clustering the empty point sequence with any positive `k` (and any
drawn centroids) returns the empty cluster sequence; the function is total,
so no error is raised. -/
theorem kMeans_empty_input (k : ℤ) (init : List (ℚ × ℚ)) (hk : 0 < k) :
    kMeansCluster [] k init = [] := rfl

/-- Witness for C8 at `k = 1`. -/
theorem kMeans_empty_input_witness :
    0 < (1 : ℤ) ∧ kMeansCluster [] 1 [(0, 0)] = [] :=
  ⟨by decide, kMeans_empty_input 1 [(0, 0)] (by decide)⟩

theorem kMeans_mem_ne_nil (restaurants : List Restaurant) (k : ℤ)
    (init : List (ℚ × ℚ)) :
    ∀ c ∈ kMeansCluster restaurants k init, c.restaurants ≠ [] := by
  intro c hc
  by_cases hemp : restaurants.length = 0
  · have hnil : restaurants = [] := List.length_eq_zero.mp hemp
    subst hnil
    simp [kMeansCluster] at hc
  · simp only [kMeansCluster, if_neg hemp] at hc
    rcases List.mem_filterMap.mp hc with ⟨i, _, hout⟩
    exact (clusterOut_eq_some _ _ _ _ _ hout).2.2.1

theorem length_le_flatten_length :
    ∀ ls : List (List Restaurant), (∀ l ∈ ls, l ≠ []) →
      ls.length ≤ ls.flatten.length := by
  intro ls
  induction ls with
  | nil => intro _; simp
  | cons l ls ih =>
    intro h
    simp only [List.flatten_cons, List.length_append, List.length_cons]
    have h1 : 0 < l.length := List.length_pos.mpr (h l (List.mem_cons_self l ls))
    have h2 := ih (fun x hx => h x (List.mem_cons_of_mem _ hx))
    omega

/-- C3: for every input, every positive `k` and every choice of the `k`
drawn centroids, the member lists of the returned clusters partition the
input: their concatenation is a permutation of the input list (every point
in exactly one cluster, none dropped, none duplicated), and each member
list is an ordered subsequence (sublist) of the input. -/
theorem kMeans_partition (restaurants : List Restaurant) (k : ℤ)
    (init : List (ℚ × ℚ)) (hk : 0 < k) (hinit : init.length = k.toNat) :
    (((kMeansCluster restaurants k init).map (fun c => c.restaurants)).flatten).Perm
        restaurants ∧
      ∀ c ∈ kMeansCluster restaurants k init, c.restaurants.Sublist restaurants := by
  refine ⟨kMeans_members_flatten_perm restaurants k init hk hinit, ?_⟩
  intro c hc
  by_cases hemp : restaurants.length = 0
  · have hnil : restaurants = [] := List.length_eq_zero.mp hemp
    subst hnil
    simp [kMeansCluster] at hc
  · simp only [kMeansCluster, if_neg hemp] at hc
    rcases List.mem_filterMap.mp hc with ⟨i, _, hout⟩
    rcases clusterOut_eq_some _ _ _ _ _ hout with ⟨_, hres, _, _⟩
    rw [hres]
    exact clusterMembers_sublist restaurants _ i
      (le_of_eq (kmeansRun_fst_length restaurants k init).symm)

/-- Witness for C3 at a concrete input: one point, `k = 1`. -/
theorem kMeans_partition_witness :
    0 < (1 : ℤ) ∧ ([((0 : ℚ), (0 : ℚ))] : List (ℚ × ℚ)).length = (1 : ℤ).toNat ∧
    ((((kMeansCluster [⟨"restaurant-0", "A", 0, 0⟩] 1 [(0, 0)]).map
        (fun c => c.restaurants)).flatten).Perm [⟨"restaurant-0", "A", 0, 0⟩] ∧
      ∀ c ∈ kMeansCluster [⟨"restaurant-0", "A", 0, 0⟩] 1 [(0, 0)],
        c.restaurants.Sublist [⟨"restaurant-0", "A", 0, 0⟩]) :=
  ⟨by decide, by decide,
    kMeans_partition [⟨"restaurant-0", "A", 0, 0⟩] 1 [(0, 0)] (by decide) (by decide)⟩

/-- C4: for positive `k` every returned cluster has at least one member,
and the output is exactly the indices `0 ≤ i < k` whose final member list
is nonempty — indices with an empty assignment set are dropped. -/
theorem kMeans_nonempty_clusters (restaurants : List Restaurant) (k : ℤ)
    (init : List (ℚ × ℚ)) (hk : 0 < k) :
    (∀ c ∈ kMeansCluster restaurants k init, c.restaurants ≠ []) ∧
      (kMeansCluster restaurants k init).map (fun c => c.id) =
        (List.range k.toNat).filter
          (fun i => decide (0 < (clusterMembers restaurants
            (kmeansRun restaurants k init).1 i).length)) := by
  refine ⟨kMeans_mem_ne_nil restaurants k init, ?_⟩
  by_cases hemp : restaurants.length = 0
  · have hnil : restaurants = [] := List.length_eq_zero.mp hemp
    subst hnil
    have hKC : kMeansCluster [] k init = [] := rfl
    rw [hKC, List.map_nil]
    symm
    rw [List.filter_eq_nil_iff]
    intro i _
    have hmem : clusterMembers [] (kmeansRun [] k init).1 i = [] := rfl
    simp [hmem]
  · simp only [kMeansCluster, if_neg hemp]
    exact filterMap_clusterOut_ids restaurants _ _ (List.range k.toNat)

/-- Witness for C4 at a concrete input: two points, `k = 2`, initial
centroids on top of each point, so both indices survive. -/
theorem kMeans_nonempty_clusters_witness :
    0 < (2 : ℤ) ∧
    ((∀ c ∈ kMeansCluster [⟨"restaurant-0", "A", 0, 0⟩, ⟨"restaurant-1", "B", 10, 0⟩]
        2 [(1, 0), (9, 0)], c.restaurants ≠ []) ∧
      (kMeansCluster [⟨"restaurant-0", "A", 0, 0⟩, ⟨"restaurant-1", "B", 10, 0⟩]
          2 [(1, 0), (9, 0)]).map (fun c => c.id) =
        (List.range (2 : ℤ).toNat).filter
          (fun i => decide (0 < (clusterMembers
            [⟨"restaurant-0", "A", 0, 0⟩, ⟨"restaurant-1", "B", 10, 0⟩]
            (kmeansRun [⟨"restaurant-0", "A", 0, 0⟩, ⟨"restaurant-1", "B", 10, 0⟩]
              2 [(1, 0), (9, 0)]).1 i).length))) :=
  ⟨by decide,
    kMeans_nonempty_clusters [⟨"restaurant-0", "A", 0, 0⟩, ⟨"restaurant-1", "B", 10, 0⟩]
      2 [(1, 0), (9, 0)] (by decide)⟩

/-- C7 counterexample: two pairwise-distinct points and `k = 2 ≥ n = 2`,
with a reachable initialization (both draws at the bounding-box midpoint
`(1/2, 0)`): every point ties between the two coincident centroids, the
tie-break assigns both to index 0, the first assignment round equals the
initial all-zero vector, and the run returns a single cluster holding both
points — not singletons as the claim demands. -/
theorem kMeans_singleton_counterexample :
    (([⟨"restaurant-0", "A", 0, 0⟩, ⟨"restaurant-1", "B", 1, 0⟩] : List Restaurant).map
        (fun r => (r.lat, r.lon))).Nodup ∧
    (([⟨"restaurant-0", "A", 0, 0⟩, ⟨"restaurant-1", "B", 1, 0⟩] : List Restaurant).length
        : ℤ) ≤ 2 ∧
    kMeansCluster [⟨"restaurant-0", "A", 0, 0⟩, ⟨"restaurant-1", "B", 1, 0⟩] 2
        [(1 / 2, 0), (1 / 2, 0)] =
      [⟨0, (1 / 2, 0), [⟨"restaurant-0", "A", 0, 0⟩, ⟨"restaurant-1", "B", 1, 0⟩],
        "#e91e63"⟩] ∧
    ¬ (∀ c ∈ kMeansCluster [⟨"restaurant-0", "A", 0, 0⟩, ⟨"restaurant-1", "B", 1, 0⟩] 2
        [(1 / 2, 0), (1 / 2, 0)], c.restaurants.length = 1) := by
  decide

/-- C7 amended: clustering `n` pairwise-distinct points with `k ≥ n` yields
at most `n` non-empty clusters; the singleton part of the claim is false
(see the counterexample), since nothing prevents several points from
converging onto one centroid index. -/
theorem kMeans_at_most_n_clusters (restaurants : List Restaurant) (k : ℤ)
    (init : List (ℚ × ℚ)) (hk : 0 < k)
    (hdist : ((restaurants.map (fun r => (r.lat, r.lon))).Nodup))
    (hn : (restaurants.length : ℤ) ≤ k) (hinit : init.length = k.toNat) :
    (kMeansCluster restaurants k init).length ≤ restaurants.length := by
  have hperm := kMeans_members_flatten_perm restaurants k init hk hinit
  have hlen := hperm.length_eq
  have hne : ∀ l ∈ (kMeansCluster restaurants k init).map (fun c => c.restaurants),
      l ≠ [] := by
    intro l hl
    rcases List.mem_map.mp hl with ⟨c, hc, rfl⟩
    exact kMeans_mem_ne_nil restaurants k init c hc
  have h1 := length_le_flatten_length _ hne
  rw [List.length_map] at h1
  omega

/-- Witness for the amended C7: two distinct points, `k = 2`, centroids
drawn on top of the two points. -/
theorem kMeans_at_most_n_clusters_witness :
    0 < (2 : ℤ) ∧
    (([⟨"restaurant-0", "A", 0, 0⟩, ⟨"restaurant-1", "B", 1, 0⟩] : List Restaurant).map
        (fun r => (r.lat, r.lon))).Nodup ∧
    ((([⟨"restaurant-0", "A", 0, 0⟩, ⟨"restaurant-1", "B", 1, 0⟩] :
        List Restaurant).length : ℤ) ≤ 2) ∧
    ([((0 : ℚ), (0 : ℚ)), ((1 : ℚ), (0 : ℚ))] : List (ℚ × ℚ)).length = (2 : ℤ).toNat ∧
    (kMeansCluster [⟨"restaurant-0", "A", 0, 0⟩, ⟨"restaurant-1", "B", 1, 0⟩] 2
        [(0, 0), (1, 0)]).length ≤
      ([⟨"restaurant-0", "A", 0, 0⟩, ⟨"restaurant-1", "B", 1, 0⟩] :
        List Restaurant).length :=
  ⟨by decide, by decide, by decide, by decide,
    kMeans_at_most_n_clusters [⟨"restaurant-0", "A", 0, 0⟩, ⟨"restaurant-1", "B", 1, 0⟩]
      2 [(0, 0), (1, 0)] (by decide) (by decide) (by decide) (by decide)⟩

/-- C9: frame property of the update step: the centroid array keeps its
length (no centroid is removed), an index with an empty current assignment
keeps its previous position unchanged, and an index with at least one
member is overwritten with the mean of its members' positions. -/
theorem updateCentroids_frame (restaurants : List Restaurant) (assignments : List ℕ)
    (k : ℕ) (centroids : List (ℚ × ℚ)) (i : ℕ)
    (hik : i < k) (hi : i < centroids.length) :
    (updateCentroids restaurants assignments k centroids).length = centroids.length ∧
    (clusterMembers restaurants assignments i = [] →
      (updateCentroids restaurants assignments k centroids).getD i (0, 0) =
        centroids.getD i (0, 0)) ∧
    (clusterMembers restaurants assignments i ≠ [] →
      (updateCentroids restaurants assignments k centroids).getD i (0, 0) =
        meanPosition (clusterMembers restaurants assignments i)) := by
  refine ⟨updateCentroids_length _ _ _ _, ?_, ?_⟩
  · intro hnil
    rw [updateCentroids_getD _ _ _ _ _ _ hik hi, if_neg (by simp [hnil])]
  · intro hne
    rw [updateCentroids_getD _ _ _ _ _ _ hik hi, if_pos (List.length_pos.mpr hne)]

/-- Witness for C9: one point assigned to index 0, two centroids, `k = 2`:
index 1 has no members and keeps `(7, 7)`; at the same input the theorem
also yields the overwrite property for the nonempty index. -/
theorem updateCentroids_frame_witness :
    1 < 2 ∧ 1 < ([((5 : ℚ), (5 : ℚ)), ((7 : ℚ), (7 : ℚ))] : List (ℚ × ℚ)).length ∧
    ((updateCentroids [⟨"restaurant-0", "A", 0, 0⟩] [0] 2
        [((5 : ℚ), (5 : ℚ)), ((7 : ℚ), (7 : ℚ))]).length =
      ([((5 : ℚ), (5 : ℚ)), ((7 : ℚ), (7 : ℚ))] : List (ℚ × ℚ)).length ∧
    (clusterMembers [⟨"restaurant-0", "A", 0, 0⟩] [0] 1 = [] →
      (updateCentroids [⟨"restaurant-0", "A", 0, 0⟩] [0] 2
          [((5 : ℚ), (5 : ℚ)), ((7 : ℚ), (7 : ℚ))]).getD 1 (0, 0) =
        ([((5 : ℚ), (5 : ℚ)), ((7 : ℚ), (7 : ℚ))] : List (ℚ × ℚ)).getD 1 (0, 0)) ∧
    (clusterMembers [⟨"restaurant-0", "A", 0, 0⟩] [0] 1 ≠ [] →
      (updateCentroids [⟨"restaurant-0", "A", 0, 0⟩] [0] 2
          [((5 : ℚ), (5 : ℚ)), ((7 : ℚ), (7 : ℚ))]).getD 1 (0, 0) =
        meanPosition (clusterMembers [⟨"restaurant-0", "A", 0, 0⟩] [0] 1))) :=
  ⟨by decide, by decide,
    updateCentroids_frame [⟨"restaurant-0", "A", 0, 0⟩] [0] 2
      [((5 : ℚ), (5 : ℚ)), ((7 : ℚ), (7 : ℚ))] 1 (by decide) (by decide)⟩

/-- C10: the returned cluster sequence is ordered by strictly increasing
cluster id, and every returned id lies in `0 ≤ id < k`. -/
theorem kMeans_ids_sorted (restaurants : List Restaurant) (k : ℤ)
    (init : List (ℚ × ℚ)) (hk : 0 < k) :
    List.Pairwise (fun a b => a < b)
        ((kMeansCluster restaurants k init).map (fun c => c.id)) ∧
      ∀ c ∈ kMeansCluster restaurants k init, c.id < k.toNat := by
  constructor
  · by_cases hemp : restaurants.length = 0
    · have hnil : restaurants = [] := List.length_eq_zero.mp hemp
      subst hnil
      have hKC : kMeansCluster [] k init = [] := rfl
      rw [hKC]
      exact List.Pairwise.nil
    · simp only [kMeansCluster, if_neg hemp]
      rw [filterMap_clusterOut_ids]
      exact List.Pairwise.sublist (List.filter_sublist _) (List.pairwise_lt_range _)
  · intro c hc
    by_cases hemp : restaurants.length = 0
    · have hnil : restaurants = [] := List.length_eq_zero.mp hemp
      subst hnil
      simp [kMeansCluster] at hc
    · simp only [kMeansCluster, if_neg hemp] at hc
      rcases List.mem_filterMap.mp hc with ⟨i, hi, hout⟩
      rcases clusterOut_eq_some _ _ _ _ _ hout with ⟨hid, _, _, _⟩
      rw [hid]
      exact List.mem_range.mp hi

/-- Witness for C10: two clusters come back, with ids `[0, 1]`. -/
theorem kMeans_ids_sorted_witness :
    0 < (2 : ℤ) ∧
    (List.Pairwise (fun a b => a < b)
        ((kMeansCluster [⟨"restaurant-0", "A", 0, 0⟩, ⟨"restaurant-1", "B", 10, 0⟩] 2
          [(1, 0), (9, 0)]).map (fun c => c.id)) ∧
      ∀ c ∈ kMeansCluster [⟨"restaurant-0", "A", 0, 0⟩, ⟨"restaurant-1", "B", 10, 0⟩] 2
          [(1, 0), (9, 0)], c.id < (2 : ℤ).toNat) :=
  ⟨by decide,
    kMeans_ids_sorted [⟨"restaurant-0", "A", 0, 0⟩, ⟨"restaurant-1", "B", 10, 0⟩] 2
      [(1, 0), (9, 0)] (by decide)⟩

/-- C1 amended: for every input, every non-positive `k` and any drawn
centroids, the function does not fail — `kMeansCluster` contains no
validation of `k` (and no error channel at all): it returns the empty
cluster sequence, which for a nonempty input silently drops every point. -/
theorem kMeans_nonpositive_k (restaurants : List Restaurant) (k : ℤ)
    (init : List (ℚ × ℚ)) (hk : k ≤ 0) :
    kMeansCluster restaurants k init = [] := by
  have h0 : k.toNat = 0 := by omega
  by_cases hemp : restaurants.length = 0
  · simp [kMeansCluster, hemp]
  · simp [kMeansCluster, if_neg hemp, h0]

/-- Witness for the amended C1 at `k = 0` with one input point. -/
theorem kMeans_nonpositive_k_witness :
    (0 : ℤ) ≤ 0 ∧ kMeansCluster [⟨"restaurant-0", "A", 0, 0⟩] 0 [] = [] :=
  ⟨by decide, kMeans_nonpositive_k [⟨"restaurant-0", "A", 0, 0⟩] 0 [] (by decide)⟩
